import Mathlib

set_option maxHeartbeats 1000000
set_option maxRecDepth 4000
set_option exponentiation.threshold 1024

/-!
Verification of the client-side Zeroconf addUser implementation in
`src/sync/zeroconf_auth.py`.

Modelling conventions.
* A byte is a `Nat` (well-formed bytes are `< 256`); a Python `bytes`
  value is a `List Nat`.
* A Python function that can raise is modelled as returning `Option`;
  `none` stands for the raised exception (the doc comment of each
  definition names the exception).
* Calls into external libraries (`hashlib`, `hmac`, the `cryptography`
  package) are modelled as abstract function parameters collected in
  `CryptoPrims`; `os.urandom` draws are explicit byte-list arguments.
-/

/-- Model of Python `bytes(listOfInts)`: raises `ValueError` (modelled
as `none`) unless every entry is in `range(0, 256)`. -/
def pyBytes (l : List Nat) : Option (List Nat) :=
  if ∀ b ∈ l, b < 256 then some l else none

/-- Model of `_write_int` (`zeroconf_auth.py` lines 79-88): one byte for
values `≤ 127`, otherwise `bytes([(n & 0x7f) | 0x80, n >> 7])`, where the
`bytes` constructor raises once `n >> 7` exceeds 255. -/
def pyWriteInt (n : Nat) : Option (List Nat) :=
  if n > 127 then pyBytes [(n &&& 127) ||| 128, n >>> 7] else pyBytes [n]

/-- The varint encoding exactly as the spec words it (§4.1): the single
byte `[n]` for `n ≤ 127`, otherwise the two bytes
`[(n &&& 0x7f) ||| 0x80, n >>> 7]`. -/
def specVarint (n : Nat) : List Nat :=
  if n ≤ 127 then [n] else [(n &&& 127) ||| 128, n >>> 7]

/-- One iteration of the obfuscation loop (`zeroconf_auth.py` line 132):
`raw[j] ^= raw[j - 16]`. -/
def xorStep (l : List Nat) (j : Nat) : List Nat :=
  l.set j ((l.getD j 0) ^^^ (l.getD (j - 16) 0))

/-- The forward XOR loop of `_build_inner_blob` run over the first `k`
indices: `for j in range(16, 16 + k): raw[j] ^= raw[j - 16]`. -/
def xorForwardAux (l : List Nat) (k : Nat) : List Nat :=
  (List.range' 16 k).foldl xorStep l

/-- Lines 130-132: `for j in range(16, len(raw)): raw[j] ^= raw[j - 16]`,
processed in increasing index order. -/
def xorForward (l : List Nat) : List Nat :=
  xorForwardAux l (l.length - 16)

/-- The same loop processed in decreasing index order,
`for j in range(len(raw) - 1, 15, -1): raw[j] ^= raw[j - 16]`: the
device-side inverse described in the source comment at lines 126-129,
run over the `k` lowest of the indices `≥ 16`. -/
def xorBackwardAux (l : List Nat) (k : Nat) : List Nat :=
  ((List.range' 16 k).reverse).foldl xorStep l

/-- Backward XOR pass over the whole buffer (indices `len - 1` down
to 16). -/
def xorBackward (l : List Nat) : List Nat :=
  xorBackwardAux l (l.length - 16)

/-- Spec-side description of the forward transform: the final value at
index `j` is the original byte for `j < 16`, and otherwise the original
byte XORed with the final value at `j - 16` (the loop runs forward, so
position `j - 16` is already transformed when `j` is processed). -/
def obfVal (p : List Nat) (j : Nat) : Nat :=
  if h : j < 16 then p.getD j 0 else (p.getD j 0) ^^^ obfVal p (j - 16)
termination_by j
decreasing_by omega

/-- Spec-side forward transform as a whole-buffer map. -/
def specXorForward (p : List Nat) : List Nat :=
  (List.range p.length).map (obfVal p)

/-- Plaintext assembly, zero padding, and XOR obfuscation of
`_build_inner_blob` (lines 108-132): the inner credential blob as built
before the AES-192-ECB encryption step. `none` models the `ValueError`
that `_write_int` raises on oversized length prefixes. -/
def buildInnerPadded (username token : List Nat) : Option (List Nat) :=
  (pyWriteInt username.length).bind fun wu =>
  (pyWriteInt 4).bind fun w4 =>
  (pyWriteInt token.length).bind fun wt =>
    let raw := [0] ++ wu ++ username ++ [0] ++ w4 ++ [0] ++ wt ++ token
    let padded := raw ++ List.replicate ((16 - raw.length % 16) % 16) 0
    some (xorForward padded)

/-- Spec-side inner blob (§4.3, C1): the concatenation
`0x00, varint(len(username)), username, 0x00, varint(4), 0x00,
varint(len(token)), token`, zero-padded to the next multiple of 16,
then the forward XOR transform. -/
def specInnerBlob (username token : List Nat) : List Nat :=
  let body := [0] ++ specVarint username.length ++ username ++ [0] ++
    specVarint 4 ++ [0] ++ specVarint token.length ++ token
  let padded := body ++ List.replicate (16 * ((body.length + 15) / 16) - body.length) 0
  specXorForward padded

/-- `int.from_bytes(b, "big")`. -/
def fromBytesBE (l : List Nat) : Nat :=
  l.foldl (fun acc b => acc * 256 + b) 0

/-- Big-endian encoding of `n % 256 ^ len` in exactly `len` bytes: the
value of `n.to_bytes(len, "big")` when that call does not overflow. -/
def toBytesBE : Nat → Nat → List Nat
  | 0, _ => []
  | len + 1, n => toBytesBE len (n / 256) ++ [n % 256]

/-- Model of `n.to_bytes(len, "big")`: raises `OverflowError` (modelled
as `none`) when `n` does not fit in `len` bytes. -/
def pyToBytesBE (n len : Nat) : Option (List Nat) :=
  if n < 256 ^ len then some (toBytesBE len n) else none

/-- `_PRIME` (lines 33-39): the 768-bit RFC 2409 Oakley Group 1 modulus,
transcribed from the source hex literal. -/
def dhPrime : Nat :=
  0xffffffffffffffffc90fdaa22168c234c4c6628b80dc1cd129024e088a67cc74020bbea63b139b22514a08798e3404ddef9519b3cd3a431b302b0a6df25f14374fe1356d6d51c245e485b576625e7ec6f44c42e9a63a3620ffffffffffffffff

/-- `_GENERATOR` (line 40). -/
def dhGenerator : Nat := 2

/-- `_KEY_BYTES` (line 41). -/
def dhKeyBytes : Nat := 96

/-- `_dh_generate` (lines 48-52) with the `os.urandom(95)` draw passed
in as `rand`: the private scalar and the 96-byte public value. -/
def dhGenerate (rand : List Nat) : Nat × Option (List Nat) :=
  let priv := fromBytesBE rand
  (priv, pyToBytesBE (dhGenerator ^ priv % dhPrime) dhKeyBytes)

/-- ASCII code of the base64 alphabet character with index `k < 64`. -/
def b64Char (k : Nat) : Nat :=
  if k < 26 then 65 + k
  else if k < 52 then 97 + (k - 26)
  else if k < 62 then 48 + (k - 52)
  else if k = 62 then 43
  else 47

/-- Whether an ASCII code is a base64 alphabet character. -/
def isB64Char (c : Nat) : Bool :=
  (65 ≤ c && c ≤ 90) || (97 ≤ c && c ≤ 122) || (48 ≤ c && c ≤ 57) || c == 43 || c == 47

/-- Alphabet index of a base64 character (left inverse of `b64Char`). -/
def b64DecChar (c : Nat) : Nat :=
  if 65 ≤ c ∧ c ≤ 90 then c - 65
  else if 97 ≤ c ∧ c ≤ 122 then c - 97 + 26
  else if 48 ≤ c ∧ c ≤ 57 then c - 48 + 52
  else if c = 43 then 62
  else 63

/-- `base64.b64encode` on a byte list (RFC 4648): each 3-byte group is
read as a 24-bit big-endian value and written as four 6-bit alphabet
indices; a trailing 1- or 2-byte group is padded with `=` (ASCII 61). -/
def b64encode : List Nat → List Nat
  | b0 :: b1 :: b2 :: rest =>
    b64Char ((b0 * 65536 + b1 * 256 + b2) / 262144) ::
    b64Char ((b0 * 65536 + b1 * 256 + b2) / 4096 % 64) ::
    b64Char ((b0 * 65536 + b1 * 256 + b2) / 64 % 64) ::
    b64Char ((b0 * 65536 + b1 * 256 + b2) % 64) :: b64encode rest
  | [b0, b1] =>
    [b64Char ((b0 * 65536 + b1 * 256) / 262144),
     b64Char ((b0 * 65536 + b1 * 256) / 4096 % 64),
     b64Char ((b0 * 65536 + b1 * 256) / 64 % 64), 61]
  | [b0] =>
    [b64Char (b0 * 65536 / 262144), b64Char (b0 * 65536 / 4096 % 64), 61, 61]
  | [] => []

/-- Decode a run of complete 4-character base64 groups into 3-byte
groups. -/
def b64DecodeGroups : List Nat → List Nat
  | c0 :: c1 :: c2 :: c3 :: rest =>
    (b64DecChar c0 * 262144 + b64DecChar c1 * 4096 + b64DecChar c2 * 64 + b64DecChar c3) / 65536 ::
    (b64DecChar c0 * 262144 + b64DecChar c1 * 4096 + b64DecChar c2 * 64 + b64DecChar c3) / 256 % 256 ::
    (b64DecChar c0 * 262144 + b64DecChar c1 * 4096 + b64DecChar c2 * 64 + b64DecChar c3) % 256 ::
    b64DecodeGroups rest
  | _ => []

/-- Model of `base64.b64decode` (which calls `binascii.a2b_base64` with
`validate=False`) for inputs free of the pad character `=`: characters
outside the base64 alphabet are silently discarded; if the count of
retained characters is not a multiple of 4 a `binascii.Error` is raised
(modelled as `none`), otherwise the complete groups are decoded. -/
def pyB64Decode (s : List Nat) : Option (List Nat) :=
  let v := s.filter isB64Char
  if v.length % 4 = 0 then some (b64DecodeGroups v) else none

/-- Strict base64 validity, the sense in which the spec says a device
key is "valid base64": every character in the alphabet and a character
count that is a multiple of 4. -/
def isStrictBase64 (s : List Nat) : Bool :=
  s.all isB64Char && s.length % 4 == 0

/-- `_dh_shared` (lines 55-58): decode the device's base64 public key,
raise it to the client private scalar modulo the prime, and emit the
result as 96 bytes. -/
def dhShared (devicePubB64 : List Nat) (clientPrivate : Nat) : Option (List Nat) :=
  (pyB64Decode devicePubB64).bind fun pb =>
    pyToBytesBE (fromBytesBE pb ^ clientPrivate % dhPrime) dhKeyBytes

/-- The external cryptographic primitives the source calls (`hashlib`,
`hmac`, `cryptography`'s AES and PBKDF2), left abstract: theorems take
their documented length behaviour as hypotheses. All arguments are byte
lists; `pbkdf2HmacSha1` takes password, salt, iteration count, and
output length. -/
structure CryptoPrims where
  sha1 : List Nat → List Nat
  hmacSha1 : List Nat → List Nat → List Nat
  aes128ctr : List Nat → List Nat → List Nat → List Nat
  aes192ecb : List Nat → List Nat → List Nat
  pbkdf2HmacSha1 : List Nat → List Nat → Nat → Nat → List Nat

/-- `struct.pack(">I", n)` for `n < 2 ^ 32`. -/
def be32 (n : Nat) : List Nat :=
  [n / 16777216 % 256, n / 65536 % 256, n / 256 % 256, n % 256]

/-- ASCII bytes of `"checksum"`. -/
def strChecksum : List Nat := [99, 104, 101, 99, 107, 115, 117, 109]

/-- ASCII bytes of `"encryption"`. -/
def strEncryption : List Nat := [101, 110, 99, 114, 121, 112, 116, 105, 111, 110]

/-- Inner key derivation of `_build_inner_blob` (lines 134-139):
`SHA1(PBKDF2-HMAC-SHA1(SHA1(deviceId), username, 0x100 iterations,
20 bytes))` followed by `struct.pack(">I", len(baseKey))`. -/
def deriveInnerKey (P : CryptoPrims) (deviceId username : List Nat) : List Nat :=
  let secret := P.sha1 deviceId
  let baseKey := P.pbkdf2HmacSha1 secret username 256 20
  P.sha1 baseKey ++ be32 baseKey.length

/-- `_build_inner_blob` (lines 91-141): the assembled, padded,
obfuscated plaintext encrypted with AES-192-ECB under the derived
key. -/
def buildInnerBlob (P : CryptoPrims) (username token deviceId : List Nat) : Option (List Nat) :=
  (buildInnerPadded username token).map fun raw =>
    P.aes192ecb (deriveInnerKey P deviceId username) raw

/-- Outer key derivation and wrap: the body of `_build_outer_blob`
(lines 153-161) with the shared secret and the `os.urandom(16)` IV
passed in explicitly. -/
def wrapOuter (P : CryptoPrims) (iv inner shared : List Nat) : List Nat :=
  let baseKey := P.sha1 shared
  let checksumKey := P.hmacSha1 baseKey strChecksum
  let encryptionKey := (P.hmacSha1 baseKey strEncryption).take 16
  let encrypted := P.aes128ctr encryptionKey iv inner
  iv ++ encrypted ++ P.hmacSha1 checksumKey encrypted

/-- `_build_outer_blob` (lines 144-161). -/
def buildOuterBlob (P : CryptoPrims) (iv inner devicePubB64 : List Nat)
    (clientPrivate : Nat) : Option (List Nat) :=
  (dhShared devicePubB64 clientPrivate).map fun shared => wrapOuter P iv inner shared

/-- The spec's `deriveOuterKeys` (§4.4), matching source lines 153-155:
`(checksumKey, encryptionKey)` derived from `SHA1(sharedSecret)` with
the HMAC-SHA1 labels `"checksum"` and `"encryption"` (the latter
truncated to 16 bytes). -/
def deriveOuterKeys (P : CryptoPrims) (shared : List Nat) : List Nat × List Nat :=
  (P.hmacSha1 (P.sha1 shared) strChecksum,
   (P.hmacSha1 (P.sha1 shared) strEncryption).take 16)

/-- Lowercase hex digit for `k < 16`. -/
def hexChar (k : Nat) : Nat :=
  if k < 10 then 48 + k else 87 + k

/-- `hashlib…hexdigest()`: two lowercase hex digits per byte. -/
def toHexLower (l : List Nat) : List Nat :=
  l.flatMap fun b => [hexChar (b / 16), hexChar (b % 16)]

/-- Whether an ASCII code is a lowercase hexadecimal digit. -/
def isHexLowerDigit (c : Nat) : Bool :=
  (48 ≤ c && c ≤ 57) || (97 ≤ c && c ≤ 102)

/-- Characters `urllib.parse.quote_plus` leaves unescaped: alphanumerics
and `_`, `.`, `-`, `~`. -/
def isUrlSafe (c : Nat) : Bool :=
  (65 ≤ c && c ≤ 90) || (97 ≤ c && c ≤ 122) || (48 ≤ c && c ≤ 57) ||
    c == 95 || c == 46 || c == 45 || c == 126

/-- Uppercase hex digit for percent-escapes. -/
def hexUpperChar (k : Nat) : Nat :=
  if k < 10 then 48 + k else 55 + k

/-- `urllib.parse.quote_plus`: space (32) becomes `+` (43), safe
characters are kept, everything else is percent-escaped. -/
def quotePlus (s : List Nat) : List Nat :=
  s.flatMap fun c =>
    if c = 32 then [43]
    else if isUrlSafe c then [c]
    else [37, hexUpperChar (c / 16), hexUpperChar (c % 16)]

/-- `urllib.parse.urlencode` over an insertion-ordered dict:
`quote_plus(key)=quote_plus(value)` pairs joined with `&` (38); 61 is
`=`. -/
def pyUrlencode (fields : List (List Nat × List Nat)) : List Nat :=
  List.intercalate [38] (fields.map fun p => quotePlus p.1 ++ [61] ++ quotePlus p.2)

/-- ASCII bytes of `"action"`. -/
def strAction : List Nat := [97, 99, 116, 105, 111, 110]

/-- ASCII bytes of `"addUser"`. -/
def strAddUser : List Nat := [97, 100, 100, 85, 115, 101, 114]

/-- ASCII bytes of `"userName"`. -/
def strUserName : List Nat := [117, 115, 101, 114, 78, 97, 109, 101]

/-- ASCII bytes of `"blob"`. -/
def strBlob : List Nat := [98, 108, 111, 98]

/-- ASCII bytes of `"clientKey"`. -/
def strClientKey : List Nat := [99, 108, 105, 101, 110, 116, 75, 101, 121]

/-- ASCII bytes of `"deviceId"`. -/
def strDeviceId : List Nat := [100, 101, 118, 105, 99, 101, 73, 100]

/-- ASCII bytes of `"deviceName"`. -/
def strDeviceName : List Nat := [100, 101, 118, 105, 99, 101, 78, 97, 109, 101]

/-- ASCII bytes of `"tokenType"`. -/
def strTokenType : List Nat := [116, 111, 107, 101, 110, 84, 121, 112, 101]

/-- ASCII bytes of `"accesstoken"`. -/
def strAccesstoken : List Nat := [97, 99, 99, 101, 115, 115, 116, 111, 107, 101, 110]

/-- The spec's ClaimRequest field list (§3), in the order the source
dict lists the fields. -/
def claimRequestFields (userName blobB64 clientKeyB64 deviceId deviceName : List Nat) :
    List (List Nat × List Nat) :=
  [(strAction, strAddUser), (strUserName, userName), (strBlob, blobB64),
   (strClientKey, clientKeyB64), (strDeviceId, deviceId),
   (strDeviceName, deviceName), (strTokenType, strAccesstoken)]

/-- The pure part of `add_user` (lines 168-198) up to and including the
POST body: the keypair comes from the 95-byte draw `rand95`, the default
client device id from the 20-byte draw `randDid` (line 179 hashes it
with SHA1 and renders the digest as hex), then inner blob, outer blob,
and the form-encoded body. `none` models an exception escaping before
`urlopen` is ever reached, so a `none` result means no HTTP request is
sent. -/
def addUserBody (P : CryptoPrims) (rand95 randDid iv deviceId devicePubB64 username token : List Nat)
    (clientDeviceId : Option (List Nat)) (clientDeviceName : List Nat) : Option (List Nat) :=
  let cdid := match clientDeviceId with
    | some c => c
    | none => toHexLower (P.sha1 randDid)
  let priv := (dhGenerate rand95).1
  ((dhGenerate rand95).2).bind fun clientPublic =>
  (buildInnerBlob P username token deviceId).bind fun inner =>
  (buildOuterBlob P iv inner devicePubB64 priv).map fun blob =>
    pyUrlencode [(strAction, strAddUser), (strUserName, username),
      (strBlob, b64encode blob), (strClientKey, b64encode clientPublic),
      (strDeviceId, cdid), (strDeviceName, clientDeviceName),
      (strTokenType, strAccesstoken)]

/-- A degenerate instantiation of the external primitives, used only to
exercise the parameterised theorems on concrete inputs. -/
def trivPrims : CryptoPrims where
  sha1 := fun _ => List.replicate 20 0
  hmacSha1 := fun _ _ => List.replicate 20 0
  aes128ctr := fun _ _ d => d
  aes192ecb := fun _ d => d
  pbkdf2HmacSha1 := fun _ _ _ l => List.replicate l 0

theorem length_xorStep (l : List Nat) (j : Nat) :
    (xorStep l j).length = l.length := by
  simp [xorStep]

theorem xorForwardAux_succ (l : List Nat) (k : Nat) :
    xorForwardAux l (k + 1) = xorStep (xorForwardAux l k) (16 + k) := by
  rw [xorForwardAux, List.range'_1_concat, List.foldl_append]
  rfl

theorem length_xorForwardAux (l : List Nat) (k : Nat) :
    (xorForwardAux l k).length = l.length := by
  induction k with
  | zero => rfl
  | succ k ih => rw [xorForwardAux_succ, length_xorStep, ih]

theorem obfVal_lt (p : List Nat) (j : Nat) (h : j < 16) :
    obfVal p j = p.getD j 0 := by
  rw [obfVal]
  simp [h]

theorem obfVal_ge (p : List Nat) (j : Nat) (h : ¬ j < 16) :
    obfVal p j = (p.getD j 0) ^^^ obfVal p (j - 16) := by
  rw [obfVal]
  simp [h]

theorem xorForwardAux_getElem? (l : List Nat) (k j : Nat) :
    (xorForwardAux l k)[j]? =
      if j < 16 + k ∧ j < l.length then some (obfVal l j) else l[j]? := by
  induction k generalizing j with
  | zero =>
    have h0 : xorForwardAux l 0 = l := rfl
    rw [h0]
    split
    · next h =>
      rw [obfVal_lt l j (by omega), List.getD_eq_getElem?_getD,
        List.getElem?_eq_getElem h.2]
      rfl
    · rfl
  | succ k ih =>
    rw [xorForwardAux_succ, xorStep, List.getElem?_set]
    by_cases hj : 16 + k = j
    · subst hj
      by_cases hlen : 16 + k < l.length
      · rw [if_pos rfl, if_pos (by rw [length_xorForwardAux]; exact hlen)]
        have hq1 : (xorForwardAux l k).getD (16 + k) 0 = l.getD (16 + k) 0 := by
          rw [List.getD_eq_getElem?_getD, ih, if_neg (by omega),
            List.getD_eq_getElem?_getD]
        have hq2 : (xorForwardAux l k).getD (16 + k - 16) 0 = obfVal l k := by
          have h16 : 16 + k - 16 = k := by omega
          rw [h16, List.getD_eq_getElem?_getD, ih, if_pos ⟨by omega, by omega⟩]
          rfl
        rw [hq1, hq2, if_pos ⟨by omega, hlen⟩, obfVal_ge l (16 + k) (by omega)]
        have h16 : 16 + k - 16 = k := by omega
        rw [h16]
      · rw [if_pos rfl, if_neg (by rw [length_xorForwardAux]; exact hlen),
          if_neg (by omega), List.getElem?_eq_none (by omega)]
    · rw [if_neg hj, ih]
      have hiff : (j < 16 + k ∧ j < l.length) ↔ (j < 16 + (k + 1) ∧ j < l.length) := by
        omega
      rw [if_congr hiff rfl rfl]

theorem length_specXorForward (p : List Nat) :
    (specXorForward p).length = p.length := by
  simp [specXorForward]

/-- The in-place forward loop computes exactly the spec-side pointwise
transform. -/
theorem xorForward_eq_specXorForward (l : List Nat) :
    xorForward l = specXorForward l := by
  apply List.ext_getElem?
  intro j
  rw [xorForward, xorForwardAux_getElem?]
  by_cases hlen : j < l.length
  · rw [if_pos ⟨by omega, hlen⟩, specXorForward, List.getElem?_map,
      List.getElem?_range hlen]
    rfl
  · rw [if_neg (by omega), List.getElem?_eq_none (by omega),
      List.getElem?_eq_none (by rw [length_specXorForward]; omega)]

theorem xorBackwardAux_succ (l : List Nat) (k : Nat) :
    xorBackwardAux l (k + 1) = xorBackwardAux (xorStep l (16 + k)) k := by
  rw [xorBackwardAux, List.range'_1_concat, List.reverse_append]
  rfl

theorem xorBackwardAux_getElem? (k : Nat) (q : List Nat) (j : Nat) :
    (xorBackwardAux q k)[j]? =
      if 16 ≤ j ∧ j < 16 + k ∧ j < q.length then
        some ((q.getD j 0) ^^^ (q.getD (j - 16) 0))
      else q[j]? := by
  induction k generalizing q with
  | zero =>
    have h0 : xorBackwardAux q 0 = q := rfl
    rw [h0, if_neg (by omega)]
  | succ k ih =>
    rw [xorBackwardAux_succ, ih]
    by_cases hj : j = 16 + k
    · subst hj
      rw [if_neg (by omega)]
      by_cases hlen : 16 + k < q.length
      · rw [xorStep, List.getElem?_set_self (by exact hlen),
          if_pos ⟨by omega, by omega, hlen⟩]
      · rw [xorStep, List.getElem?_set, if_pos rfl, if_neg hlen,
          if_neg (by omega), List.getElem?_eq_none (by omega)]
    · have hgd : ∀ m, m ≠ 16 + k → (xorStep q (16 + k)).getD m 0 = q.getD m 0 := by
        intro m hm
        rw [xorStep, List.getD_eq_getElem?_getD,
          List.getElem?_set_ne (fun hh => hm hh.symm), List.getD_eq_getElem?_getD]
      by_cases hc : 16 ≤ j ∧ j < 16 + k ∧ j < q.length
      · rw [if_pos ⟨hc.1, hc.2.1, by rw [length_xorStep]; exact hc.2.2⟩,
          hgd j hj, hgd (j - 16) (by omega), if_pos ⟨hc.1, by omega, hc.2.2⟩]
      · rw [if_neg (by rw [length_xorStep]; exact hc), xorStep,
          List.getElem?_set_ne (fun hh => hj hh.symm),
          if_neg (fun hh => hc ⟨hh.1, by omega, hh.2.2⟩)]

theorem length_xorForward (l : List Nat) : (xorForward l).length = l.length := by
  rw [xorForward, length_xorForwardAux]

theorem xorForward_getD (p : List Nat) (m : Nat) (hm : m < p.length) :
    (xorForward p).getD m 0 = obfVal p m := by
  rw [List.getD_eq_getElem?_getD, xorForward, xorForwardAux_getElem?,
    if_pos ⟨by omega, hm⟩]
  rfl

/-- The backward loop undoes the forward loop. -/
theorem xorBackward_xorForward (p : List Nat) :
    xorBackward (xorForward p) = p := by
  apply List.ext_getElem?
  intro j
  have hlen : (xorForward p).length = p.length := length_xorForward p
  rw [xorBackward, hlen, xorBackwardAux_getElem?, hlen]
  by_cases hc : 16 ≤ j ∧ j < 16 + (p.length - 16) ∧ j < p.length
  · rw [if_pos hc, xorForward_getD p j hc.2.2, xorForward_getD p (j - 16) (by omega),
      obfVal_ge p j (by omega), Nat.xor_cancel_right,
      List.getD_eq_getElem?_getD, List.getElem?_eq_getElem hc.2.2]
    rfl
  · rw [if_neg hc, xorForward, xorForwardAux_getElem?]
    by_cases hj : j < p.length
    · have hj16 : j < 16 := by omega
      rw [if_pos ⟨by omega, hj⟩, obfVal_lt p j hj16,
        List.getD_eq_getElem?_getD, List.getElem?_eq_getElem hj]
      rfl
    · rw [if_neg (by omega)]

/-- The forward transform leaves the first 16 bytes untouched. -/
theorem xorForward_take16 (p : List Nat) :
    (xorForward p).take 16 = p.take 16 := by
  apply List.ext_getElem?
  intro j
  rw [List.getElem?_take, List.getElem?_take]
  split
  · next hj =>
    rw [xorForward, xorForwardAux_getElem?]
    by_cases hlen : j < p.length
    · rw [if_pos ⟨by omega, hlen⟩, obfVal_lt p j (by omega),
        List.getD_eq_getElem?_getD, List.getElem?_eq_getElem hlen]
      rfl
    · rw [if_neg (by omega)]
  · rfl

/-- **C10**: the forward XOR obfuscation never modifies the first 16
bytes of the padded blob, and the backward pass (`j` from `length - 1`
down to 16) applied to the transformed blob recovers the original
padded plaintext exactly, for every blob whose length is a multiple
of 16. -/
theorem c10_xor_obfuscation_invertible (p : List Nat) (h : p.length % 16 = 0) :
    (xorForward p).take 16 = p.take 16 ∧ xorBackward (xorForward p) = p :=
  ⟨xorForward_take16 p, xorBackward_xorForward p⟩

theorem c10_witness :
    (List.range 32).length % 16 = 0 ∧
      ((xorForward (List.range 32)).take 16 = (List.range 32).take 16 ∧
        xorBackward (xorForward (List.range 32)) = List.range 32) :=
  ⟨by decide, c10_xor_obfuscation_invertible (List.range 32) (by decide)⟩

theorem pyWriteInt_eq_specVarint (n : Nat) (h : n < 32768) :
    pyWriteInt n = some (specVarint n) := by
  have hsr : n >>> 7 = n / 128 := Nat.shiftRight_eq_div_pow n 7
  have hand : n &&& 127 ≤ 127 := Nat.and_le_right
  have hb1 : (n &&& 127) ||| 128 < 256 := by
    have h256 : (256 : Nat) = 2 ^ 8 := by norm_num
    rw [h256]
    exact Nat.or_lt_two_pow (by omega) (by omega)
  rw [pyWriteInt, specVarint, pyBytes, pyBytes]
  by_cases h127 : n ≤ 127
  · rw [if_neg (by omega), if_pos h127, if_pos (by simp; omega)]
  · rw [if_pos (by omega), if_neg h127, if_pos (by simp; omega)]

/-- **C1**: whenever the length prefixes are encodable, the inner
credential blob built before encryption is exactly the byte sequence
`0x00, varint(len(username)), username, 0x00, varint(4), 0x00,
varint(len(token)), token`, zero-padded to the next multiple of 16 (so
its length is a multiple of 16) and then transformed by the forward
in-place XOR `buffer[j] ^= buffer[j - 16]` for `j` from 16 upward. -/
theorem c1_inner_blob_format (u t : List Nat)
    (hu : u.length < 32768) (ht : t.length < 32768) :
    buildInnerPadded u t = some (specInnerBlob u t) ∧
      (specInnerBlob u t).length % 16 = 0 := by
  rw [buildInnerPadded, pyWriteInt_eq_specVarint u.length hu,
    pyWriteInt_eq_specVarint 4 (by omega), pyWriteInt_eq_specVarint t.length ht]
  simp only [Option.some_bind]
  rw [specInnerBlob]
  constructor
  · simp only [xorForward_eq_specXorForward]
    have hpad : ∀ L : Nat, (16 - L % 16) % 16 = 16 * ((L + 15) / 16) - L := by
      intro L
      omega
    rw [hpad]
  · rw [length_specXorForward, List.length_append, List.length_replicate]
    omega

theorem c1_witness :
    ([97, 108, 105, 99, 101] : List Nat).length < 32768 ∧
    ([116, 111, 107] : List Nat).length < 32768 ∧
    (buildInnerPadded [97, 108, 105, 99, 101] [116, 111, 107] =
        some (specInnerBlob [97, 108, 105, 99, 101] [116, 111, 107]) ∧
      (specInnerBlob [97, 108, 105, 99, 101] [116, 111, 107]).length % 16 = 0) :=
  ⟨by decide, by decide,
    c1_inner_blob_format [97, 108, 105, 99, 101] [116, 111, 107] (by decide) (by decide)⟩

/-- **C6** counterexample: the claim quantifies over every non-negative
`n`, but at `n = 32768` the encoder does not return the two claimed
bytes — `bytes([(n & 0x7f) | 0x80, n >> 7])` raises `ValueError`
because `32768 >> 7 = 256`. -/
theorem c6_counterexample :
    pyWriteInt 32768 ≠ some [(32768 &&& 127) ||| 128, 32768 >>> 7] := by
  decide

/-- **C6** (amended): for every `n < 32768`, the varint encoding returns
the single byte `[n]` when `n ≤ 127` (exactly 1 byte) and otherwise
exactly the two bytes `[(n &&& 0x7f) ||| 0x80, n >>> 7]`; both entries
of the two-byte form are genuine bytes (`< 256`). -/
theorem c6_varint_encoding (n : Nat) (h : n < 32768) :
    (n ≤ 127 → pyWriteInt n = some [n] ∧ ([n] : List Nat).length = 1) ∧
    (127 < n → pyWriteInt n = some [(n &&& 127) ||| 128, n >>> 7] ∧
      ([(n &&& 127) ||| 128, n >>> 7] : List Nat).length = 2 ∧
      (n &&& 127) ||| 128 < 256 ∧ n >>> 7 < 256) := by
  have hs := pyWriteInt_eq_specVarint n h
  have hsr : n >>> 7 = n / 128 := Nat.shiftRight_eq_div_pow n 7
  have hand : n &&& 127 ≤ 127 := Nat.and_le_right
  have hb1 : (n &&& 127) ||| 128 < 256 := by
    have h256 : (256 : Nat) = 2 ^ 8 := by norm_num
    rw [h256]
    exact Nat.or_lt_two_pow (by omega) (by omega)
  constructor
  · intro h127
    rw [hs, specVarint, if_pos h127]
    exact ⟨rfl, rfl⟩
  · intro h127
    rw [hs, specVarint, if_neg (by omega)]
    exact ⟨rfl, rfl, hb1, by omega⟩

theorem c6_witness :
    (200 : Nat) < 32768 ∧
    (((200 : Nat) ≤ 127 → pyWriteInt 200 = some [200] ∧ ([200] : List Nat).length = 1) ∧
      (127 < (200 : Nat) → pyWriteInt 200 = some [(200 &&& 127) ||| 128, 200 >>> 7] ∧
        ([(200 &&& 127) ||| 128, 200 >>> 7] : List Nat).length = 2 ∧
        (200 &&& 127) ||| 128 < 256 ∧ 200 >>> 7 < 256)) :=
  ⟨by decide, c6_varint_encoding 200 (by decide)⟩

theorem pyWriteInt_isSome (n : Nat) :
    (pyWriteInt n).isSome = true ↔ n < 32768 := by
  have hsr : n >>> 7 = n / 128 := Nat.shiftRight_eq_div_pow n 7
  have hand : n &&& 127 ≤ 127 := Nat.and_le_right
  have hb1 : (n &&& 127) ||| 128 < 256 := by
    have h256 : (256 : Nat) = 2 ^ 8 := by norm_num
    rw [h256]
    exact Nat.or_lt_two_pow (by omega) (by omega)
  rw [pyWriteInt]
  by_cases h127 : n > 127
  · rw [if_pos h127, pyBytes]
    by_cases hfit : n >>> 7 < 256
    · rw [if_pos (by simp; omega)]
      simp
      omega
    · rw [if_neg (by simp; omega)]
      simp
      omega
  · rw [if_neg h127, pyBytes, if_pos (by simp; omega)]
    simp
    omega

theorem buildInnerPadded_isSome (u t : List Nat) :
    (buildInnerPadded u t).isSome = true ↔
      (u.length < 32768 ∧ t.length < 32768) := by
  rw [buildInnerPadded]
  have h4 : pyWriteInt 4 = some [4] := by decide
  rcases hu : pyWriteInt u.length with _ | wu
  · simp only [Option.none_bind, Option.isSome_none]
    have := (pyWriteInt_isSome u.length).symm
    rw [hu] at this
    simp at this
    simp
    omega
  · rcases ht : pyWriteInt t.length with _ | wt
    · have := (pyWriteInt_isSome t.length).symm
      rw [ht] at this
      simp at this
      simp [h4, ht]
      omega
    · have hu' := (pyWriteInt_isSome u.length)
      have ht' := (pyWriteInt_isSome t.length)
      rw [hu] at hu'
      rw [ht] at ht'
      simp at hu' ht'
      simp [h4, ht]
      exact ⟨hu', ht'⟩

/-- **C7** counterexample: a 20000-byte access token does not raise —
no `EncodingLimitError` exists anywhere in the code; `_write_int`
silently encodes 20000 as the two bytes `[0xa0, 0x9c]` and the blob
build succeeds, so the request proceeds to the network. -/
theorem c7_counterexample :
    pyWriteInt 20000 = some [160, 156] ∧
    (buildInnerBlob trivPrims [97] (List.replicate 20000 97) [100]).isSome = true := by
  constructor
  · decide
  · rw [buildInnerBlob, Option.isSome_map']
    rw [buildInnerPadded_isSome]
    constructor
    · decide
    · rw [List.length_replicate]
      omega

/-- **C7** (amended): the blob-building path performs no 14-bit limit
check and never raises an `EncodingLimitError` (no such exception
exists); it succeeds exactly when both the username and the token are
shorter than 32768 bytes, the point where `bytes([n >> 7])` raises a
generic `ValueError`. Tokens between 16384 and 32767 bytes — outside
the claimed 14-bit range — are encoded silently. -/
theorem c7_no_length_rejection (P : CryptoPrims) (u t d : List Nat) :
    (buildInnerBlob P u t d).isSome = true ↔
      (u.length < 32768 ∧ t.length < 32768) := by
  rw [buildInnerBlob, Option.isSome_map']
  exact buildInnerPadded_isSome u t

theorem length_toBytesBE (len : Nat) : ∀ n, (toBytesBE len n).length = len := by
  induction len with
  | zero => intro n; rfl
  | succ len ih =>
    intro n
    rw [toBytesBE, List.length_append, ih, List.length_singleton]

theorem fromBytesBE_append_singleton (l : List Nat) (b : Nat) :
    fromBytesBE (l ++ [b]) = fromBytesBE l * 256 + b := by
  rw [fromBytesBE, fromBytesBE, List.foldl_append]
  rfl

theorem fromBytesBE_toBytesBE (len : Nat) :
    ∀ n, n < 256 ^ len → fromBytesBE (toBytesBE len n) = n := by
  induction len with
  | zero =>
    intro n h
    have hn : n = 0 := by
      have := Nat.pow_zero 256
      omega
    subst hn
    rfl
  | succ len ih =>
    intro n h
    have hdiv : n / 256 < 256 ^ len := by
      have hp : 256 ^ (len + 1) = 256 ^ len * 256 := by ring
      rw [hp] at h
      omega
    rw [toBytesBE, fromBytesBE_append_singleton, ih (n / 256) hdiv]
    omega

theorem toBytesBE_bytes_lt (len : Nat) : ∀ n, ∀ b ∈ toBytesBE len n, b < 256 := by
  induction len with
  | zero => intro n b hb; simp [toBytesBE] at hb
  | succ len ih =>
    intro n b hb
    rw [toBytesBE] at hb
    rcases List.mem_append.mp hb with h | h
    · exact ih (n / 256) b h
    · have : b = n % 256 := by simpa using h
      omega

theorem fromBytesBE_lt (l : List Nat) (h : ∀ b ∈ l, b < 256) :
    fromBytesBE l < 256 ^ l.length := by
  induction l using List.reverseRecOn with
  | nil => simp [fromBytesBE]
  | append_singleton l b ih =>
    rw [fromBytesBE_append_singleton]
    have hb : b < 256 := h b (by simp)
    have hl : fromBytesBE l < 256 ^ l.length := ih (fun x hx => h x (by simp [hx]))
    have hp : 256 ^ (l ++ [b]).length = 256 ^ l.length * 256 := by
      rw [List.length_append, List.length_singleton]
      ring
    rw [hp]
    omega

theorem dhPrime_lt_2pow768 : dhPrime < 2 ^ 768 := by
  unfold dhPrime
  norm_num

theorem dhPrime_pos : 0 < dhPrime := by
  unfold dhPrime
  norm_num

/-- The source modulus is a 768-bit number. -/
theorem dhPrime_768bit : 2 ^ 767 ≤ dhPrime ∧ dhPrime < 2 ^ 768 :=
  ⟨by unfold dhPrime; norm_num, dhPrime_lt_2pow768⟩

theorem pow256_96_eq : (256 : Nat) ^ 96 = 2 ^ 768 := by
  have h : (256 : Nat) = 2 ^ 8 := by norm_num
  rw [h, ← pow_mul]

theorem dhModValue_lt (x e : Nat) : x ^ e % dhPrime < 256 ^ 96 := by
  have h1 : x ^ e % dhPrime < dhPrime := Nat.mod_lt _ dhPrime_pos
  have h2 : dhPrime < 2 ^ 768 := dhPrime_lt_2pow768
  rw [pow256_96_eq]
  omega

/-- **C4**: the private scalar is the big-endian value of the 95-byte
random draw (hence below `2 ^ 760`); the public value `2 ^ private mod P`
is encoded as exactly 96 big-endian bytes, zero-padded on the left, for
every invocation. -/
theorem c4_keypair_generation (rand : List Nat)
    (hlen : rand.length = 95) (hb : ∀ b ∈ rand, b < 256) :
    (dhGenerate rand).1 < 2 ^ 760 ∧
    (dhGenerate rand).2 =
      some (toBytesBE 96 (dhGenerator ^ (dhGenerate rand).1 % dhPrime)) ∧
    ∀ pub, (dhGenerate rand).2 = some pub →
      pub.length = 96 ∧
      fromBytesBE pub = dhGenerator ^ (dhGenerate rand).1 % dhPrime := by
  have hpriv : (dhGenerate rand).1 = fromBytesBE rand := rfl
  have hlt : fromBytesBE rand < 2 ^ 760 := by
    have h1 := fromBytesBE_lt rand hb
    rw [hlen] at h1
    have h2 : (256 : Nat) ^ 95 = 2 ^ 760 := by
      have h : (256 : Nat) = 2 ^ 8 := by norm_num
      rw [h, ← pow_mul]
    rw [h2] at h1
    exact h1
  have hfit : dhGenerator ^ fromBytesBE rand % dhPrime < 256 ^ 96 :=
    dhModValue_lt dhGenerator (fromBytesBE rand)
  have hsome : (dhGenerate rand).2 =
      some (toBytesBE 96 (dhGenerator ^ fromBytesBE rand % dhPrime)) := by
    show pyToBytesBE _ dhKeyBytes = _
    rw [pyToBytesBE]
    exact if_pos hfit
  have e1 : (toBytesBE 96 (dhGenerator ^ fromBytesBE rand % dhPrime)).length = 96 :=
    length_toBytesBE 96 (dhGenerator ^ fromBytesBE rand % dhPrime)
  have e2 : fromBytesBE (toBytesBE 96 (dhGenerator ^ fromBytesBE rand % dhPrime)) =
      dhGenerator ^ fromBytesBE rand % dhPrime :=
    fromBytesBE_toBytesBE 96 (dhGenerator ^ fromBytesBE rand % dhPrime) hfit
  refine ⟨by rw [hpriv]; exact hlt, by rw [hpriv]; exact hsome, ?_⟩
  intro pub hpub
  rw [hpriv]
  rw [hsome] at hpub
  have hpub' : pub = toBytesBE 96 (dhGenerator ^ fromBytesBE rand % dhPrime) :=
    (Option.some_injective _ hpub).symm
  rw [hpub']
  exact ⟨e1, e2⟩

theorem c4_witness :
    ((List.replicate 95 0 : List Nat).length = 95 ∧
      (∀ b ∈ (List.replicate 95 0 : List Nat), b < 256)) ∧
    ((dhGenerate (List.replicate 95 0)).1 < 2 ^ 760 ∧
      (dhGenerate (List.replicate 95 0)).2 =
        some (toBytesBE 96 (dhGenerator ^ (dhGenerate (List.replicate 95 0)).1 % dhPrime)) ∧
      ∀ pub, (dhGenerate (List.replicate 95 0)).2 = some pub →
        pub.length = 96 ∧
        fromBytesBE pub = dhGenerator ^ (dhGenerate (List.replicate 95 0)).1 % dhPrime) :=
  ⟨⟨by simp, by simp⟩,
    c4_keypair_generation (List.replicate 95 0) (by simp) (by simp)⟩

theorem b64_char_ok : ∀ k, k < 64 →
    isB64Char (b64Char k) = true ∧ b64DecChar (b64Char k) = k := by
  decide

theorem b64_roundtrip : ∀ (x : List Nat), (∀ c ∈ x, c < 256) → x.length % 3 = 0 →
    (b64encode x).filter isB64Char = b64encode x ∧
    (b64encode x).length % 4 = 0 ∧
    b64DecodeGroups (b64encode x) = x
  | [], _, _ => ⟨rfl, rfl, rfl⟩
  | [b0], _, hl => absurd hl (by simp)
  | [b0, b1], _, hl => absurd hl (by simp)
  | b0 :: b1 :: b2 :: rest, hb, hl => by
    have hrest : rest.length % 3 = 0 := by
      have hcons : (b0 :: b1 :: b2 :: rest).length = rest.length + 3 := by simp
      omega
    have hbrest : ∀ c ∈ rest, c < 256 := fun c hc => hb c (by simp [hc])
    obtain ⟨ih1, ih2, ih3⟩ := b64_roundtrip rest hbrest hrest
    have h0 : b0 < 256 := hb b0 (by simp)
    have h1 : b1 < 256 := hb b1 (by simp)
    have h2 : b2 < 256 := hb b2 (by simp)
    have hc0 := b64_char_ok ((b0 * 65536 + b1 * 256 + b2) / 262144) (by omega)
    have hc1 := b64_char_ok ((b0 * 65536 + b1 * 256 + b2) / 4096 % 64) (by omega)
    have hc2 := b64_char_ok ((b0 * 65536 + b1 * 256 + b2) / 64 % 64) (by omega)
    have hc3 := b64_char_ok ((b0 * 65536 + b1 * 256 + b2) % 64) (by omega)
    have henc : b64encode (b0 :: b1 :: b2 :: rest) =
        b64Char ((b0 * 65536 + b1 * 256 + b2) / 262144) ::
        b64Char ((b0 * 65536 + b1 * 256 + b2) / 4096 % 64) ::
        b64Char ((b0 * 65536 + b1 * 256 + b2) / 64 % 64) ::
        b64Char ((b0 * 65536 + b1 * 256 + b2) % 64) :: b64encode rest := rfl
    refine ⟨?_, ?_, ?_⟩
    · rw [henc, List.filter_cons_of_pos hc0.1, List.filter_cons_of_pos hc1.1,
        List.filter_cons_of_pos hc2.1, List.filter_cons_of_pos hc3.1, ih1]
    · rw [henc]
      simp only [List.length_cons]
      omega
    · rw [henc, b64DecodeGroups, hc0.2, hc1.2, hc2.2, hc3.2, ih3]
      have hm : (b0 * 65536 + b1 * 256 + b2) / 262144 * 262144 +
          (b0 * 65536 + b1 * 256 + b2) / 4096 % 64 * 4096 +
          (b0 * 65536 + b1 * 256 + b2) / 64 % 64 * 64 +
          (b0 * 65536 + b1 * 256 + b2) % 64 = b0 * 65536 + b1 * 256 + b2 := by
        omega
      rw [hm]
      have e0 : (b0 * 65536 + b1 * 256 + b2) / 65536 = b0 := by omega
      have e1 : (b0 * 65536 + b1 * 256 + b2) / 256 % 256 = b1 := by omega
      have e2 : (b0 * 65536 + b1 * 256 + b2) % 256 = b2 := by omega
      rw [e0, e1, e2]

/-- Decoding inverts encoding for byte strings whose length is a
multiple of 3 (no padding character is produced). -/
theorem pyB64Decode_b64encode (x : List Nat)
    (hb : ∀ c ∈ x, c < 256) (hl : x.length % 3 = 0) :
    pyB64Decode (b64encode x) = some x := by
  obtain ⟨hf, hlen, hdec⟩ := b64_roundtrip x hb hl
  rw [pyB64Decode]
  simp only [hf]
  rw [if_pos hlen, hdec]

theorem dhGenerate_snd (rand : List Nat) :
    (dhGenerate rand).2 =
      some (toBytesBE 96 (dhGenerator ^ fromBytesBE rand % dhPrime)) := by
  show pyToBytesBE _ dhKeyBytes = _
  rw [pyToBytesBE]
  exact if_pos (dhModValue_lt dhGenerator (fromBytesBE rand))

theorem pow_mod_comm (x y : Nat) :
    (dhGenerator ^ x % dhPrime) ^ y % dhPrime =
      (dhGenerator ^ y % dhPrime) ^ x % dhPrime := by
  rw [← Nat.pow_mod (dhGenerator ^ x) y dhPrime,
    ← Nat.pow_mod (dhGenerator ^ y) x dhPrime, ← pow_mul, ← pow_mul,
    Nat.mul_comm x y]

theorem dhShared_of_pub (a b : Nat) :
    dhShared (b64encode (toBytesBE 96 (dhGenerator ^ a % dhPrime))) b =
      pyToBytesBE ((dhGenerator ^ a % dhPrime) ^ b % dhPrime) 96 := by
  have hfit : dhGenerator ^ a % dhPrime < 256 ^ 96 :=
    dhModValue_lt dhGenerator a
  have hbytes : ∀ c ∈ toBytesBE 96 (dhGenerator ^ a % dhPrime), c < 256 :=
    toBytesBE_bytes_lt 96 (dhGenerator ^ a % dhPrime)
  have hlen : (toBytesBE 96 (dhGenerator ^ a % dhPrime)).length = 96 :=
    length_toBytesBE 96 (dhGenerator ^ a % dhPrime)
  rw [dhShared, pyB64Decode_b64encode _ hbytes (by rw [hlen]), Option.some_bind,
    fromBytesBE_toBytesBE 96 (dhGenerator ^ a % dhPrime) hfit]
  rfl

/-- **C5**: for any two generated keypairs, the shared secret computed
from B's base64-encoded public value and A's private scalar equals the
one computed from A's public value and B's private scalar. -/
theorem c5_shared_secret_symmetric (randA randB pubA pubB : List Nat)
    (hA : (dhGenerate randA).2 = some pubA)
    (hB : (dhGenerate randB).2 = some pubB) :
    dhShared (b64encode pubB) (dhGenerate randA).1 =
      dhShared (b64encode pubA) (dhGenerate randB).1 := by
  have ha : (dhGenerate randA).1 = fromBytesBE randA := rfl
  have hb : (dhGenerate randB).1 = fromBytesBE randB := rfl
  rw [dhGenerate_snd randA] at hA
  rw [dhGenerate_snd randB] at hB
  have hA' : pubA = toBytesBE 96 (dhGenerator ^ fromBytesBE randA % dhPrime) :=
    (Option.some_injective _ hA).symm
  have hB' : pubB = toBytesBE 96 (dhGenerator ^ fromBytesBE randB % dhPrime) :=
    (Option.some_injective _ hB).symm
  rw [ha, hb, hA', hB',
    dhShared_of_pub (fromBytesBE randB) (fromBytesBE randA),
    dhShared_of_pub (fromBytesBE randA) (fromBytesBE randB),
    pow_mod_comm (fromBytesBE randB) (fromBytesBE randA)]

theorem c5_witness :
    ((dhGenerate [1]).2 = some (toBytesBE 96 2) ∧
      (dhGenerate [2]).2 = some (toBytesBE 96 4)) ∧
    dhShared (b64encode (toBytesBE 96 4)) (dhGenerate [1]).1 =
      dhShared (b64encode (toBytesBE 96 2)) (dhGenerate [2]).1 :=
  ⟨⟨by decide, by decide⟩,
    c5_shared_secret_symmetric [1] [2] (toBytesBE 96 2) (toBytesBE 96 4)
      (by decide) (by decide)⟩

/-- **C8** counterexample: `"!!!"` (bytes `[33, 33, 33]`) is not valid
base64, yet the shared-secret computation does not fail at all — the
lenient decoder discards the invalid characters, decodes the empty
string, and `_dh_shared` returns 96 zero bytes (`0 ^ 1 mod P = 0`); no
`CryptoInputError` exists in the code and no exception precedes the
HTTP request. -/
theorem c8_counterexample :
    isStrictBase64 [33, 33, 33] = false ∧
    dhShared [33, 33, 33] 1 = some (toBytesBE 96 0) := by
  constructor
  · decide
  · have hdec : pyB64Decode [33, 33, 33] = some [] := by decide
    rw [dhShared, hdec, Option.some_bind]
    have h0 : fromBytesBE ([] : List Nat) = 0 := rfl
    rw [h0, Nat.zero_pow (by omega), Nat.zero_mod]
    show pyToBytesBE 0 96 = _
    rw [pyToBytesBE]
    exact if_pos (pow_pos (by norm_num) 96)

/-- **C8** (amended): a malformed `devicePublicKey` never produces a
`CryptoInputError` (no such exception exists). The decoder silently
drops non-alphabet characters: a key made only of invalid characters
(e.g. `"!!!"`) decodes to the empty byte string and the claim proceeds
with shared secret `0 ^ private mod P = 0`; only when the count of
retained characters is not a multiple of 4 (e.g. `"A"`) does
`base64.b64decode` raise — a generic `binascii.Error` — and that
failure occurs while building the blob, before the HTTP request. -/
theorem c8_malformed_key_lenient (priv : Nat) (hp : 0 < priv) :
    dhShared [33, 33, 33] priv = some (toBytesBE 96 0) ∧
    dhShared [65] priv = none := by
  constructor
  · have hdec : pyB64Decode [33, 33, 33] = some [] := by decide
    rw [dhShared, hdec, Option.some_bind]
    have h0 : fromBytesBE ([] : List Nat) = 0 := rfl
    rw [h0, Nat.zero_pow hp, Nat.zero_mod]
    show pyToBytesBE 0 96 = _
    rw [pyToBytesBE]
    exact if_pos (pow_pos (by norm_num) 96)
  · have hdec : pyB64Decode [65] = none := by decide
    rw [dhShared, hdec]
    rfl

theorem c8_witness :
    0 < 1 ∧
    (dhShared [33, 33, 33] 1 = some (toBytesBE 96 0) ∧
      dhShared [65] 1 = none) :=
  ⟨by decide, c8_malformed_key_lenient 1 (by decide)⟩

theorem append3_facts (iv enc mac : List Nat) (hiv : iv.length = 16) :
    (iv ++ enc ++ mac).length = 16 + enc.length + mac.length ∧
    (iv ++ enc ++ mac).drop (16 + enc.length) = mac ∧
    ((iv ++ enc ++ mac).take (16 + enc.length)).drop 16 = enc := by
  have h1 : (iv ++ enc).length = 16 + enc.length := by
    rw [List.length_append, hiv]
  refine ⟨?_, ?_, ?_⟩
  · rw [List.length_append, List.length_append, hiv]
  · rw [List.drop_left' h1]
  · rw [List.take_left' h1, List.drop_left' hiv]

/-- **C2**: the outer blob is `IV ∥ AES-128-CTR(encryptionKey, IV,
inner) ∥ HMAC-SHA1(checksumKey, streamCiphertext)` with
`checksumKey = HMAC-SHA1(SHA1(shared), "checksum")` and
`encryptionKey = first 16 bytes of HMAC-SHA1(SHA1(shared),
"encryption")`; its length is `36 + len(inner)` and its trailing 20
bytes are the HMAC of the middle ciphertext segment. -/
theorem c2_outer_blob_wrap (P : CryptoPrims) (iv inner shared : List Nat)
    (hmac20 : ∀ k m, (P.hmacSha1 k m).length = 20)
    (hctr : ∀ k v d, (P.aes128ctr k v d).length = d.length)
    (hiv : iv.length = 16) :
    wrapOuter P iv inner shared =
      iv ++ P.aes128ctr (deriveOuterKeys P shared).2 iv inner ++
        P.hmacSha1 (deriveOuterKeys P shared).1
          (P.aes128ctr (deriveOuterKeys P shared).2 iv inner) ∧
    (wrapOuter P iv inner shared).length = 36 + inner.length ∧
    (wrapOuter P iv inner shared).drop (16 + inner.length) =
      P.hmacSha1 (deriveOuterKeys P shared).1
        (((wrapOuter P iv inner shared).take (16 + inner.length)).drop 16) := by
  have he : (P.aes128ctr (deriveOuterKeys P shared).2 iv inner).length = inner.length :=
    hctr (deriveOuterKeys P shared).2 iv inner
  obtain ⟨f1, f2, f3⟩ := append3_facts iv
    (P.aes128ctr (deriveOuterKeys P shared).2 iv inner)
    (P.hmacSha1 (deriveOuterKeys P shared).1
      (P.aes128ctr (deriveOuterKeys P shared).2 iv inner)) hiv
  refine ⟨rfl, ?_, ?_⟩
  · show (iv ++ P.aes128ctr (deriveOuterKeys P shared).2 iv inner ++
        P.hmacSha1 (deriveOuterKeys P shared).1
          (P.aes128ctr (deriveOuterKeys P shared).2 iv inner)).length = 36 + inner.length
    rw [f1, he, hmac20]
    omega
  · show (iv ++ P.aes128ctr (deriveOuterKeys P shared).2 iv inner ++
        P.hmacSha1 (deriveOuterKeys P shared).1
          (P.aes128ctr (deriveOuterKeys P shared).2 iv inner)).drop (16 + inner.length) =
      P.hmacSha1 (deriveOuterKeys P shared).1
        (((iv ++ P.aes128ctr (deriveOuterKeys P shared).2 iv inner ++
          P.hmacSha1 (deriveOuterKeys P shared).1
            (P.aes128ctr (deriveOuterKeys P shared).2 iv inner)).take (16 + inner.length)).drop 16)
    rw [← he, f2, f3]

theorem trivPrims_sha1_length (x : List Nat) : (trivPrims.sha1 x).length = 20 := by
  simp [trivPrims]

theorem trivPrims_sha1_bytes (x : List Nat) : ∀ b ∈ trivPrims.sha1 x, b < 256 := by
  simp [trivPrims]

theorem trivPrims_hmac_length (k m : List Nat) : (trivPrims.hmacSha1 k m).length = 20 := by
  simp [trivPrims]

theorem trivPrims_ctr_length (k v d : List Nat) :
    (trivPrims.aes128ctr k v d).length = d.length := by
  simp [trivPrims]

theorem trivPrims_kdf_length (pw salt : List Nat) (iters len : Nat) :
    (trivPrims.pbkdf2HmacSha1 pw salt iters len).length = len := by
  simp [trivPrims]

theorem c2_witness :
    ((∀ k m, (trivPrims.hmacSha1 k m).length = 20) ∧
      (∀ k v d, (trivPrims.aes128ctr k v d).length = d.length) ∧
      (List.replicate 16 0 : List Nat).length = 16) ∧
    (wrapOuter trivPrims (List.replicate 16 0) [1, 2, 3] [7] =
        List.replicate 16 0 ++
          trivPrims.aes128ctr (deriveOuterKeys trivPrims [7]).2 (List.replicate 16 0) [1, 2, 3] ++
          trivPrims.hmacSha1 (deriveOuterKeys trivPrims [7]).1
            (trivPrims.aes128ctr (deriveOuterKeys trivPrims [7]).2 (List.replicate 16 0) [1, 2, 3]) ∧
      (wrapOuter trivPrims (List.replicate 16 0) [1, 2, 3] [7]).length = 36 + ([1, 2, 3] : List Nat).length ∧
      (wrapOuter trivPrims (List.replicate 16 0) [1, 2, 3] [7]).drop (16 + ([1, 2, 3] : List Nat).length) =
        trivPrims.hmacSha1 (deriveOuterKeys trivPrims [7]).1
          (((wrapOuter trivPrims (List.replicate 16 0) [1, 2, 3] [7]).take
            (16 + ([1, 2, 3] : List Nat).length)).drop 16)) :=
  ⟨⟨fun k m => trivPrims_hmac_length k m, fun k v d => trivPrims_ctr_length k v d, by simp⟩,
    c2_outer_blob_wrap trivPrims (List.replicate 16 0) [1, 2, 3] [7]
      (fun k m => trivPrims_hmac_length k m) (fun k v d => trivPrims_ctr_length k v d) (by simp)⟩

/-- **C3**: the inner encryption key is
`SHA1(PBKDF2-HMAC-SHA1(SHA1(deviceId), username, 256, 20))` followed by
the big-endian 4-byte encoding of 20, and it is always exactly 24 bytes
long. Determinism across repeated calls is inherent: `deriveInnerKey`
is a pure function of `(deviceId, username)`. -/
theorem c3_inner_key_derivation (P : CryptoPrims) (deviceId username : List Nat)
    (hsha : ∀ x, (P.sha1 x).length = 20)
    (hkdf : ∀ pw salt iters len, (P.pbkdf2HmacSha1 pw salt iters len).length = len) :
    deriveInnerKey P deviceId username =
      P.sha1 (P.pbkdf2HmacSha1 (P.sha1 deviceId) username 256 20) ++ [0, 0, 0, 20] ∧
    (deriveInnerKey P deviceId username).length = 24 := by
  have hb : be32 (P.pbkdf2HmacSha1 (P.sha1 deviceId) username 256 20).length =
      [0, 0, 0, 20] := by
    rw [hkdf]
    rfl
  have hkey : deriveInnerKey P deviceId username =
      P.sha1 (P.pbkdf2HmacSha1 (P.sha1 deviceId) username 256 20) ++ [0, 0, 0, 20] := by
    show P.sha1 (P.pbkdf2HmacSha1 (P.sha1 deviceId) username 256 20) ++
        be32 (P.pbkdf2HmacSha1 (P.sha1 deviceId) username 256 20).length = _
    rw [hb]
  refine ⟨hkey, ?_⟩
  rw [hkey, List.length_append, hsha]
  rfl

theorem c3_witness :
    ((∀ x, (trivPrims.sha1 x).length = 20) ∧
      (∀ pw salt iters len, (trivPrims.pbkdf2HmacSha1 pw salt iters len).length = len)) ∧
    (deriveInnerKey trivPrims [100] [97] =
        trivPrims.sha1 (trivPrims.pbkdf2HmacSha1 (trivPrims.sha1 [100]) [97] 256 20) ++
          [0, 0, 0, 20] ∧
      (deriveInnerKey trivPrims [100] [97]).length = 24) :=
  ⟨⟨fun x => trivPrims_sha1_length x,
    fun pw salt iters len => trivPrims_kdf_length pw salt iters len⟩,
    c3_inner_key_derivation trivPrims [100] [97]
      (fun x => trivPrims_sha1_length x)
      (fun pw salt iters len => trivPrims_kdf_length pw salt iters len)⟩

theorem length_toHexLower (l : List Nat) : (toHexLower l).length = 2 * l.length := by
  induction l with
  | nil => rfl
  | cons b rest ih =>
    have hc : toHexLower (b :: rest) =
        hexChar (b / 16) :: hexChar (b % 16) :: toHexLower rest := rfl
    rw [hc, List.length_cons, List.length_cons, ih, List.length_cons]
    ring

theorem hexChar_isHexDigit : ∀ k, k < 16 → isHexLowerDigit (hexChar k) = true := by
  decide

theorem toHexLower_digits (l : List Nat) (h : ∀ b ∈ l, b < 256) :
    ∀ c ∈ toHexLower l, isHexLowerDigit c = true := by
  induction l with
  | nil => intro c hc; simp [toHexLower] at hc
  | cons b rest ih =>
    intro c hc
    have hd : toHexLower (b :: rest) =
        hexChar (b / 16) :: hexChar (b % 16) :: toHexLower rest := rfl
    rw [hd, List.mem_cons, List.mem_cons] at hc
    have hb : b < 256 := h b (by simp)
    rcases hc with rfl | rfl | hc
    · exact hexChar_isHexDigit (b / 16) (by omega)
    · exact hexChar_isHexDigit (b % 16) (by omega)
    · exact ih (fun x hx => h x (by simp [hx])) c hc

/-- **C9**: the claim request body is the form encoding of exactly the
seven ClaimRequest fields (`action=addUser`, `userName`, base64 `blob`,
base64 `clientKey`, `deviceId`, `deviceName`,
`tokenType=accesstoken`); and when no client device identifier is
supplied, the `deviceId` field is derived from the random 20-byte draw
— its SHA1 digest (20 bytes) rendered as 40 lowercase hexadecimal
characters. -/
theorem c9_claim_request_fields (P : CryptoPrims)
    (rand95 randDid iv deviceId devicePubB64 username token clientDeviceName : List Nat)
    (hrd : randDid.length = 20)
    (hsha : ∀ x, (P.sha1 x).length = 20)
    (hshaB : ∀ x, ∀ b ∈ P.sha1 x, b < 256) :
    addUserBody P rand95 randDid iv deviceId devicePubB64 username token none
        clientDeviceName =
      (((dhGenerate rand95).2).bind fun clientPublic =>
       (buildInnerBlob P username token deviceId).bind fun inner =>
       (buildOuterBlob P iv inner devicePubB64 (dhGenerate rand95).1).map fun blob =>
         pyUrlencode (claimRequestFields username (b64encode blob)
           (b64encode clientPublic) (toHexLower (P.sha1 randDid)) clientDeviceName)) ∧
    (∀ a b c d e : List Nat, (claimRequestFields a b c d e).length = 7 ∧
      (claimRequestFields a b c d e).map Prod.fst =
        [strAction, strUserName, strBlob, strClientKey, strDeviceId,
         strDeviceName, strTokenType]) ∧
    (toHexLower (P.sha1 randDid)).length = 40 ∧
    (∀ c ∈ toHexLower (P.sha1 randDid), isHexLowerDigit c = true) := by
  refine ⟨rfl, fun a b c d e => ⟨rfl, rfl⟩, ?_, toHexLower_digits _ (hshaB randDid)⟩
  rw [length_toHexLower, hsha]

theorem c9_witness :
    ((List.replicate 20 5 : List Nat).length = 20 ∧
      (∀ x, (trivPrims.sha1 x).length = 20) ∧
      (∀ x, ∀ b ∈ trivPrims.sha1 x, b < 256)) ∧
    (addUserBody trivPrims [] (List.replicate 20 5) (List.replicate 16 0) [100] [] [97] [98]
        none [110] =
      (((dhGenerate []).2).bind fun clientPublic =>
       (buildInnerBlob trivPrims [97] [98] [100]).bind fun inner =>
       (buildOuterBlob trivPrims (List.replicate 16 0) inner [] (dhGenerate []).1).map fun blob =>
         pyUrlencode (claimRequestFields [97] (b64encode blob) (b64encode clientPublic)
           (toHexLower (trivPrims.sha1 (List.replicate 20 5))) [110])) ∧
    (∀ a b c d e : List Nat, (claimRequestFields a b c d e).length = 7 ∧
      (claimRequestFields a b c d e).map Prod.fst =
        [strAction, strUserName, strBlob, strClientKey, strDeviceId,
         strDeviceName, strTokenType]) ∧
    (toHexLower (trivPrims.sha1 (List.replicate 20 5))).length = 40 ∧
    (∀ c ∈ toHexLower (trivPrims.sha1 (List.replicate 20 5)), isHexLowerDigit c = true)) :=
  ⟨⟨by simp, fun x => trivPrims_sha1_length x, fun x => trivPrims_sha1_bytes x⟩,
    c9_claim_request_fields trivPrims [] (List.replicate 20 5) (List.replicate 16 0)
      [100] [] [97] [98] [110] (by simp)
      (fun x => trivPrims_sha1_length x) (fun x => trivPrims_sha1_bytes x)⟩
